import Mathlib

/-!
Verification of the alfredmoji emoji-registry converter.

The repository contains two line-oriented parsing pipelines written in Go:

* format A (`emoji-test.txt`, file `src/unnamed/part_000`): qualification
  annotated lines, parsed with a regular expression, with a running
  "current subgroup" context;
* format B (`emoji-sequences.txt`, files `src/src/main.go` and
  `src/unnamed/part_001`): semicolon-delimited fields with optional
  `..`-ranged code points and descriptions.

Strings are modelled as `List Char` (Go strings are UTF-8; all operations
in the program are rune-level for valid Unicode text).  Each Go library
function used by the program is embedded as a `go...` definition below,
and each program function keeps its source name.  A `none` result of a
partial operation models a Go runtime panic (index out of range).
-/

/-- Character class of Go `unicode.IsSpace` (Latin-1 white space plus the
Unicode `White_Space` code points). Used by `strings.TrimSpace` and
`strings.Fields`. -/
def goIsUnicodeSpace (c : Char) : Bool :=
  c.toNat = 0x20 || c.toNat = 0x9 || c.toNat = 0xA || c.toNat = 0xB ||
  c.toNat = 0xC || c.toNat = 0xD || c.toNat = 0x85 || c.toNat = 0xA0 ||
  c.toNat = 0x1680 || (0x2000 ≤ c.toNat && c.toNat ≤ 0x200A) ||
  c.toNat = 0x2028 || c.toNat = 0x2029 || c.toNat = 0x202F ||
  c.toNat = 0x205F || c.toNat = 0x3000

/-- Character class of the RE2 Perl class `\s`, namely `[\t\n\f\r ]`. -/
def isPerlSpace (c : Char) : Bool :=
  c = ' ' || c = '\t' || c = '\n' || c = '\x0c' || c = '\r'

/-- Character class of the RE2 Perl class `\d`, namely `[0-9]`. -/
def isDigitChar (c : Char) : Bool :=
  '0' ≤ c && c ≤ '9'

/-- Leftmost occurrence splitter: `breakOn s pat = some (a, b)` when
`s = a ++ pat ++ b` with `pat` occurring at the earliest possible
position, and `none` when `pat` does not occur in `s`.  This is the
shared core of the embeddings of `strings.Split`, `strings.SplitN` and
`strings.ReplaceAll` (all of which scan with `strings.Index`). -/
def breakOn : List Char → List Char → Option (List Char × List Char)
  | [], pat => if pat.isPrefixOf ([] : List Char) then some ([], []) else none
  | c :: cs, pat =>
    if pat.isPrefixOf (c :: cs) then some ([], (c :: cs).drop pat.length)
    else (breakOn cs pat).map (fun p => (c :: p.1, p.2))

/-- Fuel-indexed worker for the embedding of `strings.Split` (full split,
non-overlapping leftmost occurrences).  Fuel `s.length` is always enough
because each step consumes at least `pat.length ≥ 1` characters. -/
def goSplitAux (pat : List Char) : Nat → List Char → List (List Char)
  | 0, s => [s]
  | fuel + 1, s =>
    match breakOn s pat with
    | none => [s]
    | some (a, b) => a :: goSplitAux pat fuel b

/-- Embedding of Go `strings.Split(s, pat)` for nonempty `pat` (the
program never splits on an empty separator; for empty `pat` we return
`[s]`, unlike Go, and never rely on that case). -/
def goSplitStr (s pat : List Char) : List (List Char) :=
  if pat.isEmpty then [s] else goSplitAux pat s.length s

/-- Embedding of Go `strings.SplitN(s, pat, 2)`: split at the first
occurrence only. -/
def goSplitN2 (s pat : List Char) : List (List Char) :=
  match breakOn s pat with
  | none => [s]
  | some (a, b) => [a, b]

/-- Fuel-indexed worker for the embedding of `strings.ReplaceAll`. -/
def goReplaceAllAux (pat rep : List Char) : Nat → List Char → List Char
  | 0, s => s
  | fuel + 1, s =>
    match breakOn s pat with
    | none => s
    | some (a, b) => a ++ rep ++ goReplaceAllAux pat rep fuel b

/-- Embedding of Go `strings.ReplaceAll(s, pat, rep)` for nonempty `pat`
(replace every non-overlapping leftmost occurrence; the program never
calls it with an empty pattern). -/
def goReplaceAll (s pat rep : List Char) : List Char :=
  if pat.isEmpty then s else goReplaceAllAux pat rep s.length s

/-- Embedding of Go `strings.TrimSpace`: drop leading and trailing
`unicode.IsSpace` characters. -/
def goTrimSpace (s : List Char) : List Char :=
  ((s.dropWhile goIsUnicodeSpace).reverse.dropWhile goIsUnicodeSpace).reverse

/-- Embedding of Go `strings.Fields`: the maximal runs of
non-white-space characters. -/
def goFields (s : List Char) : List (List Char) :=
  (s.splitOnP goIsUnicodeSpace).filter (fun t => !t.isEmpty)

/-- Embedding of Go `strings.Contains(s, sub)` (`strings.Index ≥ 0`). -/
def goContains (s sub : List Char) : Bool :=
  (breakOn s sub).isSome

/-- Embedding of Go `filepath.Split`'s file-name component (`path` after
the final `/` separator), as used by `addFileToZip` in
`src/unnamed/part_000`. -/
def baseName (path : List Char) : List Char :=
  (path.reverse.takeWhile (fun c => c ≠ '/')).reverse

-- Basic facts about `breakOn`.

/-- Soundness of `breakOn`: a `some` answer is a decomposition of the
input around the pattern. -/
theorem breakOn_eq_append {s pat a b : List Char}
    (h : breakOn s pat = some (a, b)) : s = a ++ pat ++ b := by
  induction s generalizing a b with
  | nil =>
    unfold breakOn at h
    by_cases hp : pat.isPrefixOf ([] : List Char)
    · rw [if_pos hp] at h
      have : pat = [] := List.prefix_nil.mp (List.isPrefixOf_iff_prefix.mp hp)
      cases h
      simp [this]
    · rw [if_neg hp] at h
      cases h
  | cons c cs ih =>
    unfold breakOn at h
    by_cases hp : pat.isPrefixOf (c :: cs)
    · rw [if_pos hp] at h
      obtain ⟨t, ht⟩ := List.isPrefixOf_iff_prefix.mp hp
      cases h
      rw [← ht, List.drop_left]
      simp
    · rw [if_neg hp] at h
      cases hrec : breakOn cs pat with
      | none => rw [hrec] at h; cases h
      | some p =>
        rw [hrec] at h
        cases h
        have := ih (a := p.1) (b := p.2) (by rw [hrec])
        simp [this]

/-- When the pattern is a single character that occurs in the input,
`breakOn` finds it. -/
theorem breakOn_isSome_of_mem {s : List Char} {x : Char}
    (h : x ∈ s) : (breakOn s [x]).isSome := by
  induction s with
  | nil => cases h
  | cons c cs ih =>
    unfold breakOn
    by_cases hp : ([x] : List Char).isPrefixOf (c :: cs)
    · rw [if_pos hp]; rfl
    · rw [if_neg hp]
      have hcx : ¬ (x = c) := by
        intro hx
        exact hp (by simp [hx, List.isPrefixOf])
      rcases List.mem_cons.mp h with h1 | h2
      · exact absurd h1 hcx
      · cases hopt : breakOn cs [x] with
        | none => have := ih h2; rw [hopt] at this; cases this
        | some p => simp [hopt]

/-- First-occurrence property for a single-character pattern: the prefix
returned by `breakOn` does not contain the character. -/
theorem breakOn_single_first {s a b : List Char} {x : Char}
    (h : breakOn s [x] = some (a, b)) : x ∉ a := by
  induction s generalizing a b with
  | nil =>
    unfold breakOn at h
    rw [if_neg (by simp [List.isPrefixOf])] at h
    cases h
  | cons c cs ih =>
    unfold breakOn at h
    by_cases hp : ([x] : List Char).isPrefixOf (c :: cs)
    · rw [if_pos hp] at h
      cases h
      simp
    · rw [if_neg hp] at h
      have hcx : ¬ (x = c) := by
        intro hx
        exact hp (by simp [hx, List.isPrefixOf])
      cases hrec : breakOn cs [x] with
      | none => rw [hrec] at h; cases h
      | some p =>
        rw [hrec] at h
        cases h
        intro hmem
        rcases List.mem_cons.mp hmem with h1 | h2
        · exact hcx h1
        · exact ih (by rw [hrec]) h2

/-- Characters of `goReplaceAllAux` come from the input or the
replacement. -/
theorem mem_goReplaceAllAux {pat rep : List Char} {x : Char} :
    ∀ {fuel : Nat} {s : List Char}, x ∈ goReplaceAllAux pat rep fuel s →
      x ∈ s ∨ x ∈ rep := by
  intro fuel
  induction fuel with
  | zero => intro s h; exact Or.inl h
  | succ n ih =>
    intro s h
    unfold goReplaceAllAux at h
    cases hb : breakOn s pat with
    | none => rw [hb] at h; exact Or.inl h
    | some p =>
      rw [hb] at h
      have hs := breakOn_eq_append (a := p.1) (b := p.2) (by rw [hb])
      rcases List.mem_append.mp h with h1 | h2
      · rcases List.mem_append.mp h1 with ha | hr
        · exact Or.inl (by rw [hs]; simp [ha])
        · exact Or.inr hr
      · rcases ih h2 with hbmem | hr
        · exact Or.inl (by rw [hs]; simp [hbmem])
        · exact Or.inr hr

/-- Characters of `goReplaceAll` come from the input or the
replacement. -/
theorem mem_goReplaceAll {s pat rep : List Char} {x : Char}
    (h : x ∈ goReplaceAll s pat rep) : x ∈ s ∨ x ∈ rep := by
  unfold goReplaceAll at h
  by_cases hp : pat.isEmpty
  · rw [if_pos hp] at h; exact Or.inl h
  · rw [if_neg hp] at h; exact mem_goReplaceAllAux h

/-- Replacing a single character by a replacement that does not contain
it eliminates it completely (with enough fuel). -/
theorem not_mem_goReplaceAllAux_single {rep : List Char} {x : Char}
    (hrep : x ∉ rep) :
    ∀ {fuel : Nat} {s : List Char}, s.length ≤ fuel →
      x ∉ goReplaceAllAux [x] rep fuel s := by
  intro fuel
  induction fuel with
  | zero =>
    intro s hlen
    have : s = [] := List.eq_nil_of_length_eq_zero (Nat.le_zero.mp hlen)
    subst this
    simp [goReplaceAllAux]
  | succ n ih =>
    intro s hlen
    unfold goReplaceAllAux
    cases hb : breakOn s [x] with
    | none =>
      intro hmem
      have := breakOn_isSome_of_mem hmem
      rw [hb] at this
      cases this
    | some p =>
      have hs := breakOn_eq_append (a := p.1) (b := p.2) (by rw [hb])
      have hfirst := breakOn_single_first (by rw [hb] : breakOn s [x] = some (p.1, p.2))
      have hblen : p.2.length ≤ n := by
        have : s.length = p.1.length + 1 + p.2.length := by
          rw [hs]; simp [List.length_append]; omega
        omega
      intro hmem
      rcases List.mem_append.mp hmem with h1 | h2
      · rcases List.mem_append.mp h1 with ha | hr
        · exact hfirst ha
        · exact hrep hr
      · exact ih hblen h2

/-- Replacing a single character that the replacement does not contain
eliminates it from the result. -/
theorem not_mem_goReplaceAll_single {s rep : List Char} {x : Char}
    (hrep : x ∉ rep) : x ∉ goReplaceAll s [x] rep := by
  unfold goReplaceAll
  rw [if_neg (by simp)]
  exact not_mem_goReplaceAllAux_single hrep (Nat.le_refl _)

/-- Characters of `goTrimSpace` come from the input. -/
theorem mem_goTrimSpace {s : List Char} {x : Char}
    (h : x ∈ goTrimSpace s) : x ∈ s := by
  unfold goTrimSpace at h
  rw [List.mem_reverse] at h
  have h1 := (List.dropWhile_sublist (l := (s.dropWhile goIsUnicodeSpace).reverse)
    goIsUnicodeSpace).mem h
  rw [List.mem_reverse] at h1
  exact (List.dropWhile_sublist (l := s) goIsUnicodeSpace).mem h1

/-- Split never returns an empty list of parts. -/
theorem goSplitAux_ne_nil {pat : List Char} {fuel : Nat} {s : List Char} :
    goSplitAux pat fuel s ≠ [] := by
  cases fuel with
  | zero => simp [goSplitAux]
  | succ n =>
    unfold goSplitAux
    cases hb : breakOn s pat <;> simp

/-- When the (single-character) separator occurs in the input, the split
has at least two parts. -/
theorem goSplitStr_length_ge_two {s : List Char} {x : Char}
    (h : x ∈ s) : 2 ≤ (goSplitStr s [x]).length := by
  unfold goSplitStr
  rw [if_neg (by simp)]
  have hne : s ≠ [] := by rintro rfl; cases h
  cases hs : s.length with
  | zero => exact absurd (List.eq_nil_of_length_eq_zero hs) hne
  | succ n =>
    unfold goSplitAux
    cases hb : breakOn s [x] with
    | none =>
      have := breakOn_isSome_of_mem h
      rw [hb] at this
      cases this
    | some p =>
      obtain ⟨a, b⟩ := p
      have h2 := List.length_pos.mpr (@goSplitAux_ne_nil [x] n b)
      simp only [List.length_cons]
      omega

-- Data model.

/-- EmojiData of format A (`src/unnamed/part_000`): a literal glyph, a
normalized description, and the subgroup context. -/
structure EmojiDataA where
  emoji : List Char
  description : List Char
  subgroup : List Char
deriving DecidableEq, Repr

/-- EmojiData of format B (`src/src/main.go`, `src/unnamed/part_001`): a
hexadecimal code-point string and a description. -/
structure EmojiDataB where
  codePoint : List Char
  description : List Char
deriving DecidableEq, Repr

-- Format-A regular expression.
--
-- `extractDescriptionAndEmoji` matches the compiled RE2 pattern
-- with Perl (leftmost-first) submatch semantics:
-- a caret anchor, then one-or-more Perl white space, then a first
-- greedy dot-plus capture, a space, a literal E, one-or-more digits, a
-- literal dot, one-or-more digits, a space, and a second greedy
-- dot-plus capture.  Dot matches any character except a newline.
-- Leftmost-first semantics resolve the ambiguity lexicographically:
-- the white-space run is as long as possible, and subject to that the
-- first capture is as long as possible.  The remaining quantifiers are
-- deterministic (a digit run followed by a non-digit literal).

/-- Deterministic tail of the pattern after the first capture: a space,
a literal E, one-or-more digits, a dot, one-or-more digits, a space,
then the second greedy capture (one-or-more non-newline characters,
no end anchor).  Returns the second capture. -/
def checkTail : List Char → Option (List Char)
  | ' ' :: 'E' :: t1 =>
    let d1 := t1.takeWhile isDigitChar
    let t2 := t1.dropWhile isDigitChar
    if d1.isEmpty then none
    else
      match t2 with
      | '.' :: t3 =>
        let d2 := t3.takeWhile isDigitChar
        let t4 := t3.dropWhile isDigitChar
        if d2.isEmpty then none
        else
          match t4 with
          | ' ' :: t5 =>
            let g2 := t5.takeWhile (fun c => c ≠ '\n')
            if g2.isEmpty then none else some g2
          | _ => none
      | _ => none
  | _ => none

/-- Descending search: try `f k, f (k-1), ..., f 1` and return the first
`some` answer.  Realizes the greedy (longest-first) preference of the
backtracking quantifiers. -/
def tryFuel (f : Nat → Option α) : Nat → Option α
  | 0 => none
  | k + 1 =>
    match f (k + 1) with
    | some r => some r
    | none => tryFuel f k

/-- Greedy search for the first capture: the longest nonempty
newline-free prefix of `rest` whose remainder matches the deterministic
tail.  Returns both captures. -/
def matchGroup1 (rest : List Char) : Option (List Char × List Char) :=
  tryFuel (fun k =>
    let g := rest.take k
    if g.all (fun c => c ≠ '\n') then
      match checkTail (rest.drop k) with
      | some g2 => some (g, g2)
      | none => none
    else none) rest.length

/-- FindStringSubmatch of the anchored pattern: choose the longest
white-space run (greedy, with backtracking to shorter runs) and then the
greedy first capture.  Returns the two captured groups, or `none` when
the line does not match (Go: a nil slice, so `len(matches) == 3` fails). -/
def regexFindSubmatch (input : List Char) : Option (List Char × List Char) :=
  tryFuel (fun s => matchGroup1 (input.drop s))
    ((input.takeWhile isPerlSpace).length)

-- Format-A description normalization (`extractDescriptionAndEmoji`,
-- src/unnamed/part_000 lines 131-141).  The four "curly quote" patterns
-- are copied from the source file byte-for-byte: they are the
-- three-character mojibake sequences U+201A U+00C4 followed by U+00F4,
-- U+00F2, U+00FA, U+00F9 respectively (a mis-decoding of the UTF-8
-- right/left single and double quotation marks), not the one-character
-- quotation marks themselves.

/-- Literal first quote pattern in the source (three characters). -/
def junkPat1 : List Char := [Char.ofNat 0x201A, Char.ofNat 0xC4, Char.ofNat 0xF4]

/-- Literal second quote pattern in the source (three characters). -/
def junkPat2 : List Char := [Char.ofNat 0x201A, Char.ofNat 0xC4, Char.ofNat 0xF2]

/-- Literal third quote pattern in the source (three characters). -/
def junkPat3 : List Char := [Char.ofNat 0x201A, Char.ofNat 0xC4, Char.ofNat 0xFA]

/-- Literal fourth quote pattern in the source (three characters). -/
def junkPat4 : List Char := [Char.ofNat 0x201A, Char.ofNat 0xC4, Char.ofNat 0xF9]

/-- Description clean-up chain of `extractDescriptionAndEmoji`: replace
every space by a hyphen, trim, then delete commas, colons and the four
junk patterns, in source order. -/
def normalizeDescription (raw : List Char) : List Char :=
  let d1 := goTrimSpace (goReplaceAll raw [' '] ['-'])
  let d2 := goReplaceAll d1 [','] []
  let d3 := goReplaceAll d2 [':'] []
  let d4 := goReplaceAll d3 junkPat1 []
  let d5 := goReplaceAll d4 junkPat2 []
  let d6 := goReplaceAll d5 junkPat3 []
  goReplaceAll d6 junkPat4 []

/-- Embedding of `extractDescriptionAndEmoji` (src/unnamed/part_000
lines 124-146): on a full three-element submatch, the trimmed first
capture and the cleaned second capture; otherwise two empty strings. -/
def extractDescriptionAndEmoji (input : List Char) : List Char × List Char :=
  match regexFindSubmatch input with
  | some (m1, m2) => (goTrimSpace m1, normalizeDescription m2)
  | none => ([], [])

/-- Subgroup header marker of format A. -/
def subgroupMarker : List Char := "# subgroup:".toList

/-- Embedding of format-A `parseEmojiLine` (src/unnamed/part_000 lines
149-179).  The first component is the subgroup context after the call
(the Go function mutates it through a pointer); the second is `none` for
a runtime panic (the index `[1]` into the `#`-split being out of range)
and otherwise the returned record list. -/
def parseEmojiLineA (line : List Char) (currentSubgroup : List Char) :
    List Char × Option (List EmojiDataA) :=
  if subgroupMarker.isPrefixOf line then
    (goTrimSpace (line.drop subgroupMarker.length), some [])
  else if !goContains line [';'] || !goContains line ['#'] ||
      (['#'] : List Char).isPrefixOf line ||
      goContains line "minimally-qualified".toList ||
      goContains line "unqualified".toList ||
      goContains line "component".toList then
    (currentSubgroup, some [])
  else
    match (goSplitStr ((goSplitN2 line [';']).getD 1 []) ['#']).get? 1 with
    | none => (currentSubgroup, none)
    | some interestingBits =>
      (currentSubgroup,
        some [⟨(extractDescriptionAndEmoji interestingBits).1,
               (extractDescriptionAndEmoji interestingBits).2, currentSubgroup⟩])

/-- Embedding of format-B `parseEmojiLine` (src/src/main.go lines 56-82,
src/unnamed/part_001 lines 37-63): split on semicolons, require at least
three fields, strip the comment from the third field, split the first
and third fields on the two-character range separator, and pair the
endpoints positionally, iterating over the code-point endpoints and
keeping only indices that also exist on the description side. -/
def parseEmojiLineB (line : List Char) : List EmojiDataB :=
  let parts := goSplitStr line [';']
  if parts.length < 3 then []
  else
    let codePoints := goTrimSpace (parts.getD 0 [])
    let descriptionPart := (goSplitStr (parts.getD 2 []) ['#']).getD 0 []
    let description := goTrimSpace descriptionPart
    let codePointsSplit := goSplitStr codePoints ['.', '.']
    let descriptionsSplit := goSplitStr description ['.', '.']
    (List.range codePointsSplit.length).foldl
      (fun acc i =>
        if i < descriptionsSplit.length then
          acc ++ [⟨codePointsSplit.getD i [], descriptionsSplit.getD i []⟩]
        else acc)
      []

-- Code-point resolver (format B).

/-- Value of a hexadecimal digit (both cases accepted), or `none`. -/
def hexDigitVal (c : Char) : Option Nat :=
  if c.isDigit then
    some (c.toNat - 48)
  else if 0x61 ≤ c.toNat ∧ c.toNat ≤ 0x66 then
    some (c.toNat - 87)
  else if 0x41 ≤ c.toNat ∧ c.toNat ≤ 0x46 then
    some (c.toNat - 55)
  else
    none

/-- Embedding of Go `strconv.ParseInt(s, 16, 32)`: an optional sign,
then one or more hexadecimal digits, with the result required to fit in
a signed 32-bit integer; every other input is an error (`none`). -/
def goParseHex32 (s : List Char) : Option Int :=
  let signDigits : Bool × List Char :=
    match s with
    | '+' :: rest => (false, rest)
    | '-' :: rest => (true, rest)
    | _ => (false, s)
  let neg := signDigits.1
  let digits := signDigits.2
  if digits.isEmpty then none
  else if digits.all (fun c => (hexDigitVal c).isSome) then
    let n : Nat := digits.foldl (fun acc c => 16 * acc + (hexDigitVal c).getD 0) 0
    let v : Int := if neg then -(n : Int) else (n : Int)
    if -2147483648 ≤ v ∧ v ≤ 2147483647 then some v else none
  else none

/-- Conversion of a Go `rune` (int32) to the character produced by
`string([]rune)`: an invalid scalar value becomes U+FFFD. -/
def runeToChar (r : Int) : Char :=
  if 0 ≤ r ∧ (r < 55296 ∨ (57344 ≤ r ∧ r ≤ 1114111)) then Char.ofNat r.toNat
  else Char.ofNat 0xFFFD

/-- Embedding of `convertCodePointToEmoji` (src/src/main.go lines 85-99,
src/unnamed/part_001 lines 66-80): split the input into white-space
separated fields, parse each as a base-16 int32, skip (`continue`) the
tokens that fail to parse, and convert the collected runes to a string. -/
def convertCodePointToEmoji (codePointStr : List Char) : List Char :=
  let codePoints := goFields codePointStr
  let emojiRunes : List Int := codePoints.foldl
    (fun acc cp =>
      match goParseHex32 cp with
      | none => acc
      | some v => acc ++ [v])
    []
  emojiRunes.map runeToChar

-- Format-A main scan (src/unnamed/part_000 lines 272-314).

/-- Subgroup clean-up in `main`: trim the text after the marker, replace
ampersands by the word and, and spaces by hyphens. -/
def normalizeSubgroupLine (line : List Char) : List Char :=
  let sub := goTrimSpace (line.drop subgroupMarker.length)
  let sub2 := goReplaceAll sub ['&'] "and".toList
  goReplaceAll sub2 [' '] ['-']

/-- Record-level embedding of the format-A `main` line scan: a
subgroup-header line updates the context and produces nothing; every
other line is skipped while the context is still nil, and otherwise
parsed.  `none` models a runtime panic inside `parseEmojiLine`. -/
def scanLinesA : List (List Char) → Option (List Char) → Option (List EmojiDataA)
  | [], _ => some []
  | line :: rest, cur =>
    if subgroupMarker.isPrefixOf line then
      scanLinesA rest (some (normalizeSubgroupLine line))
    else
      match cur with
      | none => scanLinesA rest none
      | some s =>
        match parseEmojiLineA line s with
        | (_, none) => none
        | (s2, some recs) =>
          match scanLinesA rest (some s2) with
          | none => none
          | some others => some (recs ++ others)

-- Effect-level embedding of the two `main` functions (the part after a
-- successful fetch; directory creation and the fetch itself precede the
-- scan and do not depend on the flag).

/-- Observable side effects of the record loop and the packaging tail:
a console print of a parsed emoji, a snippet-file write, the manifest
write, and the archive creation. -/
inductive Effect where
  | printEmoji (emoji description : List Char)
  | writeSnippet (description : List Char)
  | writePlist
  | createZip
deriving DecidableEq, Repr

/-- Effect of one record in the format-A loop (src/unnamed/part_000
lines 292-312): a snippet write in package mode, a console print in
preview mode. -/
def effectOfRecordA (displayEmojis : Bool) (r : EmojiDataA) : Effect :=
  if !displayEmojis then Effect.writeSnippet r.description
  else Effect.printEmoji r.emoji r.description

/-- Effect-level embedding of the format-A `main` line scan. -/
def mainEffectsLoopA (displayEmojis : Bool) :
    List (List Char) → Option (List Char) → Option (List Effect)
  | [], _ => some []
  | line :: rest, cur =>
    if subgroupMarker.isPrefixOf line then
      mainEffectsLoopA displayEmojis rest (some (normalizeSubgroupLine line))
    else
      match cur with
      | none => mainEffectsLoopA displayEmojis rest none
      | some s =>
        match parseEmojiLineA line s with
        | (_, none) => none
        | (s2, some recs) =>
          match mainEffectsLoopA displayEmojis rest (some s2) with
          | none => none
          | some effs => some (recs.map (effectOfRecordA displayEmojis) ++ effs)

/-- Effect-level embedding of the format-A `main` (src/unnamed/part_000
lines 276-343): the line scan, then, in package mode only, the manifest
write and the archive creation. -/
def mainEffectsA (displayEmojis : Bool) (lines : List (List Char)) :
    Option (List Effect) :=
  match mainEffectsLoopA displayEmojis lines none with
  | none => none
  | some effs =>
    some (effs ++ if !displayEmojis then [Effect.writePlist, Effect.createZip] else [])

/-- Effect-level embedding of the format-B packaging `main`
(src/src/main.go lines 205-242): per record, a snippet write in package
mode and nothing at all in preview mode; then, in package mode only, the
manifest write and the archive creation. -/
def mainEffectsB (displayEmojis : Bool) (lines : List (List Char)) : List Effect :=
  let loopEffs := lines.foldl
    (fun acc line =>
      (parseEmojiLineB line).foldl
        (fun acc2 emoji =>
          if !displayEmojis then acc2 ++ [Effect.writeSnippet emoji.description]
          else acc2)
        acc)
    []
  loopEffs ++ (if !displayEmojis then [Effect.writePlist, Effect.createZip] else [])

-- Archive builder (zipFiles / addFileToZip).

/-- File store: an association of paths to byte contents, modelling the
files written to disk before archiving. -/
def fsRead : List (List Char × List Char) → List Char → Option (List Char)
  | [], _ => none
  | (p, content) :: rest, path =>
    if p = path then some content else fsRead rest path

/-- Embedding of `addFileToZip` from src/unnamed/part_000 lines 226-249:
open the file (an absent file is an open error), create the archive
entry under the base file name, and copy the bytes unchanged. -/
def addFileToZip (fs : List (List Char × List Char))
    (entries : List (List Char × List Char)) (filename : List Char) :
    Option (List (List Char × List Char)) :=
  match fsRead fs filename with
  | none => none
  | some content => some (entries ++ [(baseName filename, content)])

/-- Embedding of `addFileToZip` from src/src/main.go lines 160-187: the
same copy, but the entry header keeps the file name exactly as passed. -/
def addFileToZipFullName (fs : List (List Char × List Char))
    (entries : List (List Char × List Char)) (filename : List Char) :
    Option (List (List Char × List Char)) :=
  match fsRead fs filename with
  | none => none
  | some content => some (entries ++ [(filename, content)])

/-- Loop of `zipFiles`: add each file in order, aborting the archive on
the first failure (src/unnamed/part_000 lines 202-223). -/
def zipFilesLoop (fs : List (List Char × List Char)) :
    List (List Char) → List (List Char × List Char) →
    Option (List (List Char × List Char))
  | [], entries => some entries
  | f :: rest, entries =>
    match addFileToZip fs entries f with
    | none => none
    | some entries2 => zipFilesLoop fs rest entries2

/-- Embedding of `zipFiles` (src/unnamed/part_000): the archive is the
list of entries in insertion order. -/
def zipFiles (fs : List (List Char × List Char)) (files : List (List Char)) :
    Option (List (List Char × List Char)) :=
  zipFilesLoop fs files []

/-- Loop of the src/src/main.go variant of `zipFiles`. -/
def zipFilesLoopFullName (fs : List (List Char × List Char)) :
    List (List Char) → List (List Char × List Char) →
    Option (List (List Char × List Char))
  | [], entries => some entries
  | f :: rest, entries =>
    match addFileToZipFullName fs entries f with
    | none => none
    | some entries2 => zipFilesLoopFullName fs rest entries2

/-- Embedding of `zipFiles` from src/src/main.go. -/
def zipFilesFullName (fs : List (List Char × List Char))
    (files : List (List Char)) : Option (List (List Char × List Char)) :=
  zipFilesLoopFullName fs files []

-- Helper lemmas.

/-- Folding a conditional append over a list is an append of a filtered
map. -/
theorem foldl_ite_append {β : Type} (m : Nat) (g : Nat → β) :
    ∀ (l : List Nat) (acc : List β),
      l.foldl (fun acc2 i => if i < m then acc2 ++ [g i] else acc2) acc =
        acc ++ (l.filter (fun i => decide (i < m))).map g := by
  intro l
  induction l with
  | nil => intro acc; simp
  | cons i rest ih =>
    intro acc
    by_cases hi : i < m
    · simp [List.foldl_cons, hi, ih, List.append_assoc]
    · simp [List.foldl_cons, hi, ih]

/-- Filtering a range by an upper bound truncates the range. -/
theorem range_filter_lt (m : Nat) :
    ∀ n : Nat, (List.range n).filter (fun i => decide (i < m)) =
      List.range (min n m) := by
  intro n
  induction n with
  | zero => simp
  | succ k ih =>
    rw [List.range_succ, List.filter_append, ih]
    by_cases hk : k < m
    · have h1 : min (k + 1) m = min k m + 1 := by omega
      rw [h1, List.range_succ]
      have h2 : min k m = k := by omega
      simp [hk, h2]
    · have h1 : min (k + 1) m = min k m := by omega
      simp [hk, h1]

/-- Endpoint list of the code-point field of a format-B line
(`codePointsSplit` in the source). -/
def codePointsSplitOf (line : List Char) : List (List Char) :=
  goSplitStr (goTrimSpace ((goSplitStr line [';']).getD 0 [])) ['.', '.']

/-- Endpoint list of the comment-stripped description field of a
format-B line (`descriptionsSplit` in the source). -/
def descriptionsSplitOf (line : List Char) : List (List Char) :=
  goSplitStr
    (goTrimSpace ((goSplitStr ((goSplitStr line [';']).getD 2 []) ['#']).getD 0 []))
    ['.', '.']

/-- Closed form of the format-B parser on a line with at least three
fields: the positional pairing of endpoints, truncated to the shorter
side. -/
theorem parseEmojiLineB_eq_map {line : List Char}
    (h : 3 ≤ (goSplitStr line [';']).length) :
    parseEmojiLineB line =
      (List.range (min (codePointsSplitOf line).length
          (descriptionsSplitOf line).length)).map
        (fun i => ⟨(codePointsSplitOf line).getD i [],
                   (descriptionsSplitOf line).getD i []⟩) := by
  unfold parseEmojiLineB codePointsSplitOf descriptionsSplitOf
  rw [if_neg (by omega)]
  rw [foldl_ite_append, range_filter_lt]
  simp

/-- Inner loop of `convertCodePointToEmoji` as a `filterMap`. -/
theorem foldl_parse_filterMap :
    ∀ (l : List (List Char)) (acc : List Int),
      l.foldl
        (fun acc2 cp =>
          match goParseHex32 cp with
          | none => acc2
          | some v => acc2 ++ [v])
        acc = acc ++ l.filterMap goParseHex32 := by
  intro l
  induction l with
  | nil => intro acc; simp
  | cons cp rest ih =>
    intro acc
    cases h : goParseHex32 cp with
    | none => simp [List.foldl_cons, h, ih]
    | some v => simp [List.foldl_cons, h, ih, List.append_assoc]

/-- Normalized descriptions contain no space character. -/
theorem space_not_mem_normalizeDescription (raw : List Char) :
    ' ' ∉ normalizeDescription raw := by
  unfold normalizeDescription
  intro h
  have h6 := mem_goReplaceAll h
  simp only [List.not_mem_nil, or_false] at h6
  have h5 := mem_goReplaceAll h6
  simp only [List.not_mem_nil, or_false] at h5
  have h4 := mem_goReplaceAll h5
  simp only [List.not_mem_nil, or_false] at h4
  have h3 := mem_goReplaceAll h4
  simp only [List.not_mem_nil, or_false] at h3
  have h2 := mem_goReplaceAll h3
  simp only [List.not_mem_nil, or_false] at h2
  have h1 := mem_goReplaceAll h2
  simp only [List.not_mem_nil, or_false] at h1
  have h0 := mem_goTrimSpace h1
  exact not_mem_goReplaceAll_single (by simp) h0

/-- Normalized descriptions contain no comma. -/
theorem comma_not_mem_normalizeDescription (raw : List Char) :
    ',' ∉ normalizeDescription raw := by
  unfold normalizeDescription
  intro h
  have h6 := mem_goReplaceAll h
  simp only [List.not_mem_nil, or_false] at h6
  have h5 := mem_goReplaceAll h6
  simp only [List.not_mem_nil, or_false] at h5
  have h4 := mem_goReplaceAll h5
  simp only [List.not_mem_nil, or_false] at h4
  have h3 := mem_goReplaceAll h4
  simp only [List.not_mem_nil, or_false] at h3
  have h2 := mem_goReplaceAll h3
  simp only [List.not_mem_nil, or_false] at h2
  exact not_mem_goReplaceAll_single (by simp) h2

/-- Normalized descriptions contain no colon. -/
theorem colon_not_mem_normalizeDescription (raw : List Char) :
    ':' ∉ normalizeDescription raw := by
  unfold normalizeDescription
  intro h
  have h6 := mem_goReplaceAll h
  simp only [List.not_mem_nil, or_false] at h6
  have h5 := mem_goReplaceAll h6
  simp only [List.not_mem_nil, or_false] at h5
  have h4 := mem_goReplaceAll h5
  simp only [List.not_mem_nil, or_false] at h4
  have h3 := mem_goReplaceAll h4
  simp only [List.not_mem_nil, or_false] at h3
  exact not_mem_goReplaceAll_single (by simp) h3

/-- Every non-header call of the format-A line parser leaves the
subgroup context unchanged and stamps it on every produced record. -/
theorem parseEmojiLineA_subgroup {line s : List Char}
    (h : subgroupMarker.isPrefixOf line = false) :
    (parseEmojiLineA line s).1 = s ∧
      ∀ recs, (parseEmojiLineA line s).2 = some recs →
        ∀ r ∈ recs, r.subgroup = s := by
  unfold parseEmojiLineA
  rw [if_neg (by simp [h])]
  by_cases hf : (!goContains line [';'] || !goContains line ['#'] ||
      (['#'] : List Char).isPrefixOf line ||
      goContains line "minimally-qualified".toList ||
      goContains line "unqualified".toList ||
      goContains line "component".toList) = true
  · rw [if_pos hf]
    refine ⟨rfl, ?_⟩
    rintro recs hrecs r hr
    cases hrecs
    cases hr
  · rw [if_neg hf]
    cases hg : (goSplitStr ((goSplitN2 line [';']).getD 1 []) ['#']).get? 1 with
    | none =>
      refine ⟨rfl, ?_⟩
      rintro recs hrecs
      cases hrecs
    | some interestingBits =>
      refine ⟨rfl, ?_⟩
      rintro recs hrecs r hr
      cases hrecs
      rcases List.mem_singleton.mp hr with rfl
      rfl

/-- Unfolding equation of the record-level scan on a cons cell with a
nil context. -/
theorem scanLinesA_cons_none (line : List Char) (rest : List (List Char)) :
    scanLinesA (line :: rest) none =
      if subgroupMarker.isPrefixOf line then
        scanLinesA rest (some (normalizeSubgroupLine line))
      else scanLinesA rest none := rfl

/-- Unfolding equation of the record-level scan on a cons cell with a
live context. -/
theorem scanLinesA_cons_some (line : List Char) (rest : List (List Char))
    (s : List Char) :
    scanLinesA (line :: rest) (some s) =
      if subgroupMarker.isPrefixOf line then
        scanLinesA rest (some (normalizeSubgroupLine line))
      else
        match parseEmojiLineA line s with
        | (_, none) => none
        | (s2, some recs) =>
          match scanLinesA rest (some s2) with
          | none => none
          | some others => some (recs ++ others) := rfl

/-- Scan invariant: while no further subgroup-header line appears, every
record produced carries the current subgroup. -/
theorem scanLinesA_subgroup_const :
    ∀ (lines : List (List Char)) (s : List Char) (recs : List EmojiDataA),
      (∀ l ∈ lines, subgroupMarker.isPrefixOf l = false) →
      scanLinesA lines (some s) = some recs →
      ∀ r ∈ recs, r.subgroup = s := by
  intro lines
  induction lines with
  | nil =>
    intro s recs _ h r hr
    cases h
    cases hr
  | cons line rest ih =>
    intro s recs hnone h r hr
    have hline : subgroupMarker.isPrefixOf line = false :=
      hnone line (List.mem_cons_self line rest)
    have hrest : ∀ l ∈ rest, subgroupMarker.isPrefixOf l = false :=
      fun l hl => hnone l (List.mem_cons_of_mem line hl)
    rw [scanLinesA_cons_some, if_neg (by simp [hline])] at h
    obtain ⟨h1, h2⟩ := @parseEmojiLineA_subgroup line s hline
    cases hp : parseEmojiLineA line s with
    | mk s2 orecs =>
      have hs2 : s2 = s := by have h1c := h1; rw [hp] at h1c; exact h1c
      subst hs2
      rw [hp] at h
      cases orecs with
      | none =>
        have hfalse : (none : Option (List EmojiDataA)) = some recs := h
        cases hfalse
      | some recs0 =>
        have hred : (match scanLinesA rest (some s2) with
            | none => none
            | some others => some (recs0 ++ others)) = some recs := h
        cases hrec : scanLinesA rest (some s2) with
        | none =>
          rw [hrec] at hred
          have hfalse : (none : Option (List EmojiDataA)) = some recs := hred
          cases hfalse
        | some others =>
          rw [hrec] at hred
          have heq : some (recs0 ++ others) = some recs := hred
          cases heq
          rcases List.mem_append.mp hr with hr1 | hr2
          · exact h2 recs0 (by rw [hp]) r hr1
          · exact ih s2 others hrest hrec r hr2

/-- Scan invariant: while the subgroup context is still nil and no
header line appears, the scan produces nothing. -/
theorem scanLinesA_none_of_no_header :
    ∀ lines : List (List Char),
      (∀ l ∈ lines, subgroupMarker.isPrefixOf l = false) →
      scanLinesA lines none = some [] := by
  intro lines
  induction lines with
  | nil => intro; rfl
  | cons line rest ih =>
    intro h
    have hline : subgroupMarker.isPrefixOf line = false :=
      h line (List.mem_cons_self line rest)
    rw [scanLinesA_cons_none, if_neg (by simp [hline])]
    exact ih fun l hl => h l (List.mem_cons_of_mem line hl)

/-- Unfolding equation of the effect-level scan on a cons cell with a
nil context. -/
theorem mainEffectsLoopA_cons_none (flag : Bool) (line : List Char)
    (rest : List (List Char)) :
    mainEffectsLoopA flag (line :: rest) none =
      if subgroupMarker.isPrefixOf line then
        mainEffectsLoopA flag rest (some (normalizeSubgroupLine line))
      else mainEffectsLoopA flag rest none := rfl

/-- Unfolding equation of the effect-level scan on a cons cell with a
live context. -/
theorem mainEffectsLoopA_cons_some (flag : Bool) (line : List Char)
    (rest : List (List Char)) (s : List Char) :
    mainEffectsLoopA flag (line :: rest) (some s) =
      if subgroupMarker.isPrefixOf line then
        mainEffectsLoopA flag rest (some (normalizeSubgroupLine line))
      else
        match parseEmojiLineA line s with
        | (_, none) => none
        | (s2, some recs) =>
          match mainEffectsLoopA flag rest (some s2) with
          | none => none
          | some effs => some (recs.map (effectOfRecordA flag) ++ effs) := rfl

/-- The effect-level format-A scan is the record-level scan with one
effect per record. -/
theorem mainEffectsLoopA_eq_scan (flag : Bool) :
    ∀ (lines : List (List Char)) (cur : Option (List Char)),
      mainEffectsLoopA flag lines cur =
        (scanLinesA lines cur).map
          (fun recs => recs.map (effectOfRecordA flag)) := by
  intro lines
  induction lines with
  | nil => intro cur; rfl
  | cons line rest ih =>
    intro cur
    cases cur with
    | none =>
      rw [mainEffectsLoopA_cons_none, scanLinesA_cons_none]
      by_cases hpre : subgroupMarker.isPrefixOf line
      · rw [if_pos hpre, if_pos hpre, ih]
      · rw [if_neg hpre, if_neg hpre, ih]
    | some s =>
      rw [mainEffectsLoopA_cons_some, scanLinesA_cons_some]
      by_cases hpre : subgroupMarker.isPrefixOf line
      · rw [if_pos hpre, if_pos hpre, ih]
      · rw [if_neg hpre, if_neg hpre]
        cases hp : parseEmojiLineA line s with
        | mk s2 orecs =>
          cases orecs with
          | none => rfl
          | some recs =>
            show (match mainEffectsLoopA flag rest (some s2) with
                | none => none
                | some effs => some (recs.map (effectOfRecordA flag) ++ effs)) =
              Option.map (fun recs => recs.map (effectOfRecordA flag))
                (match scanLinesA rest (some s2) with
                | none => none
                | some others => some (recs ++ others))
            rw [ih (some s2)]
            cases scanLinesA rest (some s2) with
            | none => rfl
            | some others => simp [List.map_append]

/-- Folding a function that ignores the list elements is the identity. -/
theorem foldl_skip {α β : Type} :
    ∀ (l : List β) (a : α), l.foldl (fun x _ => x) a = a := by
  intro l
  induction l with
  | nil => intro a; rfl
  | cons b rest ih => intro a; exact ih a

/-- Nested skipping fold over parsed records is the identity. -/
theorem foldl_skip_nested :
    ∀ (lines : List (List Char)) (acc : List Effect),
      lines.foldl
        (fun acc2 line =>
          (parseEmojiLineB line).foldl (fun a (_ : EmojiDataB) => a) acc2)
        acc = acc := by
  intro lines
  induction lines with
  | nil => intro acc; rfl
  | cons line rest ih =>
    intro acc
    rw [List.foldl_cons, foldl_skip]
    exact ih acc

/-- The format-B packaging `main` produces no effect at all in preview
mode: nothing is printed and nothing is written. -/
theorem mainEffectsB_preview (lines : List (List Char)) :
    mainEffectsB true lines = [] := by
  show (lines.foldl
      (fun acc line =>
        (parseEmojiLineB line).foldl
          (fun acc2 emoji =>
            if !true then acc2 ++ [Effect.writeSnippet emoji.description]
            else acc2)
          acc)
      []) ++ (if !true then [Effect.writePlist, Effect.createZip] else []) = []
  have hfun : (fun (acc2 : List Effect) (emoji : EmojiDataB) =>
      if !true then acc2 ++ [Effect.writeSnippet emoji.description]
      else acc2) = fun a _ => a := rfl
  rw [hfun]
  rw [foldl_skip_nested]
  rfl

/-- Soundness of the archive loop: already-collected entries persist,
and every listed file contributes its bytes under its base name. -/
theorem zipFilesLoop_sound (fs : List (List Char × List Char)) :
    ∀ (files : List (List Char)) (acc entries : List (List Char × List Char)),
      zipFilesLoop fs files acc = some entries →
      (∀ e ∈ acc, e ∈ entries) ∧
        ∀ f ∈ files, ∃ c, fsRead fs f = some c ∧ (baseName f, c) ∈ entries := by
  intro files
  induction files with
  | nil =>
    intro acc entries h
    cases h
    refine ⟨fun e he => he, ?_⟩
    rintro f hf
    cases hf
  | cons f rest ih =>
    intro acc entries h
    have hred : (match addFileToZip fs acc f with
        | none => none
        | some entries2 => zipFilesLoop fs rest entries2) = some entries := h
    cases hr : fsRead fs f with
    | none =>
      rw [show addFileToZip fs acc f = none from by
        unfold addFileToZip; rw [hr]] at hred
      cases hred
    | some c =>
      rw [show addFileToZip fs acc f = some (acc ++ [(baseName f, c)]) from by
        unfold addFileToZip; rw [hr]] at hred
      obtain ⟨hacc, hrest⟩ := ih (acc ++ [(baseName f, c)]) entries hred
      refine ⟨fun e he => hacc e (by simp [he]), ?_⟩
      intro f2 hf2
      rcases List.mem_cons.mp hf2 with rfl | hf2r
      · exact ⟨c, hr, hacc _ (by simp)⟩
      · exact hrest f2 hf2r

/-- Soundness of the src/src/main.go archive loop: every listed file
contributes its bytes under the passed file name. -/
theorem zipFilesLoopFullName_sound (fs : List (List Char × List Char)) :
    ∀ (files : List (List Char)) (acc entries : List (List Char × List Char)),
      zipFilesLoopFullName fs files acc = some entries →
      (∀ e ∈ acc, e ∈ entries) ∧
        ∀ f ∈ files, ∃ c, fsRead fs f = some c ∧ (f, c) ∈ entries := by
  intro files
  induction files with
  | nil =>
    intro acc entries h
    cases h
    refine ⟨fun e he => he, ?_⟩
    rintro f hf
    cases hf
  | cons f rest ih =>
    intro acc entries h
    have hred : (match addFileToZipFullName fs acc f with
        | none => none
        | some entries2 => zipFilesLoopFullName fs rest entries2) = some entries := h
    cases hr : fsRead fs f with
    | none =>
      rw [show addFileToZipFullName fs acc f = none from by
        unfold addFileToZipFullName; rw [hr]] at hred
      cases hred
    | some c =>
      rw [show addFileToZipFullName fs acc f = some (acc ++ [(f, c)]) from by
        unfold addFileToZipFullName; rw [hr]] at hred
      obtain ⟨hacc, hrest⟩ := ih (acc ++ [(f, c)]) entries hred
      refine ⟨fun e he => hacc e (by simp [he]), ?_⟩
      intro f2 hf2
      rcases List.mem_cons.mp hf2 with rfl | hf2r
      · exact ⟨c, hr, hacc _ (by simp)⟩
      · exact hrest f2 hf2r

/-- A path without a separator is its own base name. -/
theorem baseName_eq_self {f : List Char} (h : '/' ∉ f) : baseName f = f := by
  unfold baseName
  have hall : f.reverse.takeWhile (fun c => decide (c ≠ '/')) = f.reverse := by
    apply List.takeWhile_eq_self_iff.mpr
    intro a ha
    have hmem : a ∈ f := List.mem_reverse.mp ha
    simp only [ne_eq, decide_eq_true_eq]
    intro haf
    exact h (haf ▸ hmem)
  rw [hall, List.reverse_reverse]

/-- C1: for every format-B input line that splits into at least three
semicolon-delimited fields, the parser pairs the i-th endpoint of the
range-split code-point field with the i-th endpoint of the range-split
comment-stripped description field, emitting a record exactly for the
indices present on both sides, so the record count is the minimum of
the two endpoint counts and in particular is bounded by the description
endpoint count; a line with a two-endpoint code-point range and a
two-endpoint description range yields exactly two records paired
first-with-first and second-with-second. -/
theorem claim_C1_range_pairing :
    (∀ line : List Char, 3 ≤ (goSplitStr line [';']).length →
      (parseEmojiLineB line).length =
          min (codePointsSplitOf line).length (descriptionsSplitOf line).length ∧
        (parseEmojiLineB line).length ≤ (descriptionsSplitOf line).length ∧
        ∀ i, i < min (codePointsSplitOf line).length (descriptionsSplitOf line).length →
          (parseEmojiLineB line)[i]? =
            some ⟨(codePointsSplitOf line).getD i [],
                  (descriptionsSplitOf line).getD i []⟩) ∧
      parseEmojiLineB "1F232..1F236 ; x ; first..second # note".toList =
        [⟨"1F232".toList, "first".toList⟩, ⟨"1F236".toList, "second".toList⟩] := by
  constructor
  · intro line h
    rw [parseEmojiLineB_eq_map h]
    refine ⟨by simp, ?_, ?_⟩
    · simp [Nat.min_le_right]
    · intro i hi
      simp [List.getElem?_map, List.getElem?_range, hi]
  · decide

/-- Witness for C1 at a concrete two-endpoint range line. -/
theorem claim_C1_witness :
    (parseEmojiLineB "1F232..1F236 ; x ; first..second # note".toList).length ≤
      (descriptionsSplitOf "1F232..1F236 ; x ; first..second # note".toList).length :=
  (claim_C1_range_pairing.1 _ (by decide)).2.1

/-- C2 counterexample: a line that passes the comment, separator and
qualification filters and whose trailing annotation does not match the
version pattern still yields one record (with empty glyph and empty
description), not zero records. -/
theorem claim_C2_counterexample :
    (parseEmojiLineA "1F600 ; fully-qualified # x".toList "faces".toList).2 =
        some [⟨[], [], "faces".toList⟩] ∧
      regexFindSubmatch
        ((goSplitStr ((goSplitN2 "1F600 ; fully-qualified # x".toList [';']).getD 1 [])
          ['#']).getD 1 []) = none := by
  decide

/-- C2 (amended): for every format-A line that passes the
comment/separator/qualification filters and whose trailing annotation
exists, the parser yields exactly one record whose glyph and description
are the extracted submatches; when the version pattern does not match,
that single record has empty glyph and empty description (rather than no
record being produced). -/
theorem claim_C2_amended : ∀ line s ib : List Char,
    subgroupMarker.isPrefixOf line = false →
    (!goContains line [';'] || !goContains line ['#'] ||
      (['#'] : List Char).isPrefixOf line ||
      goContains line "minimally-qualified".toList ||
      goContains line "unqualified".toList ||
      goContains line "component".toList) = false →
    (goSplitStr ((goSplitN2 line [';']).getD 1 []) ['#']).get? 1 = some ib →
    (parseEmojiLineA line s).2 =
        some [⟨(extractDescriptionAndEmoji ib).1,
               (extractDescriptionAndEmoji ib).2, s⟩] ∧
      (regexFindSubmatch ib = none →
        (parseEmojiLineA line s).2 = some [⟨[], [], s⟩]) := by
  intro line s ib h1 h2 h3
  have hmain : (parseEmojiLineA line s).2 =
      some [⟨(extractDescriptionAndEmoji ib).1,
             (extractDescriptionAndEmoji ib).2, s⟩] := by
    unfold parseEmojiLineA
    rw [if_neg (by simp [h1]), if_neg (by rw [h2]; simp), h3]
  refine ⟨hmain, fun hre => ?_⟩
  rw [hmain]
  simp [extractDescriptionAndEmoji, hre]

/-- Witness for C2 at a concrete fully-qualified line with a matching
annotation. -/
theorem claim_C2_witness :
    (parseEmojiLineA "1F600 ; fully-qualified # G E1.0 grinning face".toList
        "faces".toList).2 =
      some [⟨(extractDescriptionAndEmoji " G E1.0 grinning face".toList).1,
             (extractDescriptionAndEmoji " G E1.0 grinning face".toList).2,
             "faces".toList⟩] :=
  (claim_C2_amended _ _ _ (by decide) (by decide) (by decide)).1

set_option maxHeartbeats 2000000 in
/-- C3 counterexample: a well-formed fully-qualified format-A line whose
description contains a tab, a genuine right single quotation mark and a
run of two spaces produces a record whose description still contains the
tab (a white-space character) and the quotation mark, and in which the
two-space run became two hyphens rather than one. -/
theorem claim_C3_counterexample :
    (parseEmojiLineA "1F600 ; fully-qualified # x E1.0 a\tb’c  d".toList
        "s".toList).2 =
        some [⟨"x".toList, "a\tb’c--d".toList, "s".toList⟩] ∧
      '\t' ∈ "a\tb’c--d".toList ∧ goIsUnicodeSpace '\t' = true ∧
      Char.ofNat 0x2019 ∈ "a\tb’c--d".toList := by
  decide

/-- Helper: the description component returned by the extractor is
either empty or a normalized description. -/
theorem extract_description_cases (ib : List Char) :
    (extractDescriptionAndEmoji ib).2 = [] ∨
      ∃ raw, (extractDescriptionAndEmoji ib).2 = normalizeDescription raw := by
  cases hre : regexFindSubmatch ib with
  | none =>
    left
    unfold extractDescriptionAndEmoji
    rw [hre]
  | some p =>
    right
    obtain ⟨m1, m2⟩ := p
    refine ⟨m2, ?_⟩
    unfold extractDescriptionAndEmoji
    rw [hre]

/-- C3 (amended): the description of every record produced by the
format-A line parser contains no space character (U+0020), no comma and
no colon; each individual space of the raw description is replaced by a
hyphen, so a run of several spaces becomes as many hyphens, and other
white-space characters (for example tabs) and genuine curly-quote code
points survive, because the source strips only four specific
three-character mojibake sequences. -/
theorem claim_C3_amended : ∀ (line s : List Char) (recs : List EmojiDataA),
    (parseEmojiLineA line s).2 = some recs →
    ∀ r ∈ recs, ' ' ∉ r.description ∧ ',' ∉ r.description ∧ ':' ∉ r.description := by
  intro line s recs hrecs r hr
  unfold parseEmojiLineA at hrecs
  by_cases hpre : subgroupMarker.isPrefixOf line = true
  · rw [if_pos hpre] at hrecs
    have hnil : some ([] : List EmojiDataA) = some recs := hrecs
    cases hnil
    cases hr
  · rw [if_neg hpre] at hrecs
    by_cases hf : (!goContains line [';'] || !goContains line ['#'] ||
        (['#'] : List Char).isPrefixOf line ||
        goContains line "minimally-qualified".toList ||
        goContains line "unqualified".toList ||
        goContains line "component".toList) = true
    · rw [if_pos hf] at hrecs
      have hnil : some ([] : List EmojiDataA) = some recs := hrecs
      cases hnil
      cases hr
    · rw [if_neg hf] at hrecs
      cases hg : (goSplitStr ((goSplitN2 line [';']).getD 1 []) ['#']).get? 1 with
      | none =>
        rw [hg] at hrecs
        have hnone : (none : Option (List EmojiDataA)) = some recs := hrecs
        cases hnone
      | some ib =>
        rw [hg] at hrecs
        have hone : some [(⟨(extractDescriptionAndEmoji ib).1,
            (extractDescriptionAndEmoji ib).2, s⟩ : EmojiDataA)] = some recs := hrecs
        cases hone
        rcases List.mem_singleton.mp hr with rfl
        refine ⟨?_, ?_, ?_⟩
        · show ' ' ∉ (extractDescriptionAndEmoji ib).2
          rcases extract_description_cases ib with hd | ⟨raw, hd⟩
          · rw [hd]; simp
          · rw [hd]; exact space_not_mem_normalizeDescription raw
        · show ',' ∉ (extractDescriptionAndEmoji ib).2
          rcases extract_description_cases ib with hd | ⟨raw, hd⟩
          · rw [hd]; simp
          · rw [hd]; exact comma_not_mem_normalizeDescription raw
        · show ':' ∉ (extractDescriptionAndEmoji ib).2
          rcases extract_description_cases ib with hd | ⟨raw, hd⟩
          · rw [hd]; simp
          · rw [hd]; exact colon_not_mem_normalizeDescription raw

/-- Witness for C3 at a concrete fully-qualified line. -/
theorem claim_C3_witness :
    ' ' ∉ ("grinning-face".toList : List Char) ∧
      ',' ∉ ("grinning-face".toList : List Char) ∧
      ':' ∉ ("grinning-face".toList : List Char) :=
  claim_C3_amended "1F600 ; fully-qualified # G E1.0 grinning face".toList
    "faces".toList
    [⟨"G".toList, "grinning-face".toList, "faces".toList⟩]
    (by decide)
    ⟨"G".toList, "grinning-face".toList, "faces".toList⟩ (by decide)

/-- C4: every format-A line containing the annotation
minimally-qualified or unqualified, or containing the word component,
produces no record (and no panic): the parser returns the empty record
list for it. -/
theorem claim_C4_qualification_filter : ∀ line s : List Char,
    (goContains line "minimally-qualified".toList = true ∨
     goContains line "unqualified".toList = true ∨
     goContains line "component".toList = true) →
    (parseEmojiLineA line s).2 = some [] := by
  intro line s h
  unfold parseEmojiLineA
  by_cases hpre : subgroupMarker.isPrefixOf line = true
  · rw [if_pos hpre]
  · have hcond : (!goContains line [';'] || !goContains line ['#'] ||
        (['#'] : List Char).isPrefixOf line ||
        goContains line "minimally-qualified".toList ||
        goContains line "unqualified".toList ||
        goContains line "component".toList) = true := by
      rcases h with h1 | h1 | h1 <;> simp only [Bool.or_eq_true] <;> tauto
    rw [if_neg hpre, if_pos hcond]

/-- Witness for C4 at a concrete unqualified line. -/
theorem claim_C4_witness :
    (parseEmojiLineA "1F636 ; unqualified # x E1.0 y".toList "s".toList).2 =
      some [] :=
  claim_C4_qualification_filter _ _ (Or.inr (Or.inl (by decide)))

/-- C5: the code-point resolver splits its input into white-space
separated tokens, parses each as a base-16 32-bit integer, skips
(without error) every token that fails to parse, and concatenates the
characters of the successful tokens; 1F600 yields the single character
U+1F600, the pair 1F1FA 1F1F8 yields two characters, and ZZZZ yields the
empty string. -/
theorem claim_C5_resolver_skips_invalid :
    (∀ s : List Char, convertCodePointToEmoji s =
        ((goFields s).filterMap goParseHex32).map runeToChar) ∧
      convertCodePointToEmoji "1F600".toList = [Char.ofNat 0x1F600] ∧
      convertCodePointToEmoji "1F1FA 1F1F8".toList =
        [Char.ofNat 0x1F1FA, Char.ofNat 0x1F1F8] ∧
      convertCodePointToEmoji "ZZZZ".toList = [] := by
  refine ⟨?_, by decide, by decide, by decide⟩
  intro s
  show List.map runeToChar
      (List.foldl
        (fun acc cp =>
          match goParseHex32 cp with
          | none => acc
          | some v => acc ++ [v])
        [] (goFields s)) =
    List.map runeToChar (List.filterMap goParseHex32 (goFields s))
  rw [foldl_parse_filterMap]
  simp

/-- C6: in the format-A scan, a subgroup-header line sets the current
subgroup, and every record produced from the following data lines (up to
the next header) carries exactly that subgroup string. -/
theorem claim_C6_subgroup_attribution : ∀ (header : List Char)
    (rest : List (List Char)) (cur : Option (List Char))
    (recs : List EmojiDataA),
    subgroupMarker.isPrefixOf header = true →
    (∀ l ∈ rest, subgroupMarker.isPrefixOf l = false) →
    scanLinesA (header :: rest) cur = some recs →
    ∀ r ∈ recs, r.subgroup = normalizeSubgroupLine header := by
  intro header rest cur recs hh hrest hscan r hr
  have hstep : scanLinesA (header :: rest) cur =
      scanLinesA rest (some (normalizeSubgroupLine header)) := by
    cases cur with
    | none => rw [scanLinesA_cons_none, if_pos hh]
    | some s => rw [scanLinesA_cons_some, if_pos hh]
  rw [hstep] at hscan
  exact scanLinesA_subgroup_const rest _ recs hrest hscan r hr

/-- Witness for C6 at a concrete header plus one data line. -/
theorem claim_C6_witness :
    (⟨"G".toList, "grinning-face".toList, "face-smiling".toList⟩ :
        EmojiDataA).subgroup =
      normalizeSubgroupLine "# subgroup: face-smiling".toList :=
  claim_C6_subgroup_attribution "# subgroup: face-smiling".toList
    ["1F600 ; fully-qualified # G E1.0 grinning face".toList] none
    [⟨"G".toList, "grinning-face".toList, "face-smiling".toList⟩]
    (by decide) (by decide) (by decide) _ (by decide)

/-- C7 counterexample: in the format-B packaging program, preview mode
prints nothing at all: a line that parses to a record produces an empty
effect trace, contradicting the claim that each parsed emoji and its
description are printed. -/
theorem claim_C7_counterexample :
    mainEffectsB true ["1F600 ; Emoji ; grinning face".toList] = [] ∧
      parseEmojiLineB "1F600 ; Emoji ; grinning face".toList ≠ [] := by
  constructor
  · decide
  · decide

/-- C7 (amended): in the format-A program, preview mode prints each
parsed emoji with its description and performs no snippet write, no
manifest write and no archive creation, while package mode performs one
snippet write per record followed by the manifest write and the archive
creation; in the format-B packaging program, preview mode performs no
writes but also prints nothing. -/
theorem claim_C7_amended :
    (∀ (lines : List (List Char)) (recs : List EmojiDataA),
      scanLinesA lines none = some recs →
      mainEffectsA true lines =
          some (recs.map (fun r => Effect.printEmoji r.emoji r.description)) ∧
        mainEffectsA false lines =
          some (recs.map (fun r => Effect.writeSnippet r.description) ++
            [Effect.writePlist, Effect.createZip])) ∧
      ∀ lines : List (List Char), mainEffectsB true lines = [] := by
  refine ⟨?_, mainEffectsB_preview⟩
  intro lines recs hscan
  have hloopT : mainEffectsLoopA true lines none =
      some (recs.map (effectOfRecordA true)) := by
    rw [mainEffectsLoopA_eq_scan, hscan]; rfl
  have hloopF : mainEffectsLoopA false lines none =
      some (recs.map (effectOfRecordA false)) := by
    rw [mainEffectsLoopA_eq_scan, hscan]; rfl
  constructor
  · unfold mainEffectsA
    rw [hloopT]
    simp only [Bool.not_true, Bool.false_eq_true, if_false, List.append_nil]
    rfl
  · unfold mainEffectsA
    rw [hloopF]
    rfl

/-- Witness for C7 at a concrete header plus one data line. -/
theorem claim_C7_witness :
    mainEffectsA true ["# subgroup: face-smiling".toList,
        "1F600 ; fully-qualified # G E1.0 grinning face".toList] =
      some [Effect.printEmoji "G".toList "grinning-face".toList] :=
  (claim_C7_amended.1 _
    [⟨"G".toList, "grinning-face".toList, "face-smiling".toList⟩]
    (by decide)).1

/-- C8 counterexample: the src/src/main.go archiver stores each entry
under the exact path passed in, so a snippet file that was successfully
written under a path with a directory component (possible, since a
description such as build/x names the pre-created build directory) is
archived under its full path: the archive build succeeds, yet no entry
carries the file's base name. -/
theorem claim_C8_counterexample :
    zipFilesFullName [("build/x [U].json".toList, "bytes".toList)]
        ["build/x [U].json".toList] =
      some [("build/x [U].json".toList, "bytes".toList)] ∧
      baseName "build/x [U].json".toList = "x [U].json".toList ∧
      ("x [U].json".toList, "bytes".toList) ∉
        [("build/x [U].json".toList, "bytes".toList)] := by
  decide

/-- C8 (amended): whenever the archive build succeeds, every file in the
list is present in the archive with byte content identical to what the
file store holds for it; the format-A archiver (src/unnamed/part_000)
stores every entry under the file's base name, while the format-B
archiver (src/src/main.go) stores every entry under the exact path it
was passed — which coincides with the base name only for paths without
a directory separator. -/
theorem claim_C8_amended :
    (∀ (fs : List (List Char × List Char)) (files : List (List Char))
        (entries : List (List Char × List Char)),
      zipFiles fs files = some entries →
      ∀ f ∈ files, ∃ c, fsRead fs f = some c ∧ (baseName f, c) ∈ entries) ∧
      ∀ (fs : List (List Char × List Char)) (files : List (List Char))
        (entries : List (List Char × List Char)),
        zipFilesFullName fs files = some entries →
        ∀ f ∈ files, ∃ c, fsRead fs f = some c ∧ (f, c) ∈ entries := by
  constructor
  · intro fs files entries h f hf
    exact (zipFilesLoop_sound fs files [] entries h).2 f hf
  · intro fs files entries h f hf
    exact (zipFilesLoopFullName_sound fs files [] entries h).2 f hf

/-- Witness for C8 at a concrete one-file store. -/
theorem claim_C8_witness :
    ∃ c, fsRead [("build/a.json".toList, "bytes".toList)]
        "build/a.json".toList = some c ∧
      (baseName "build/a.json".toList, c) ∈
        [("a.json".toList, "bytes".toList)] :=
  claim_C8_amended.1 [("build/a.json".toList, "bytes".toList)]
    ["build/a.json".toList] [("a.json".toList, "bytes".toList)]
    (by decide) "build/a.json".toList (by decide)

/-- C9 counterexample: the line a#b;c contains both a semicolon and a
hash and passes every filter, yet the hash lies before the first
semicolon, so the index one into the hash-split of the text after the
first semicolon is out of range and the parser panics. -/
theorem claim_C9_counterexample :
    goContains "a#b;c".toList [';'] = true ∧
      goContains "a#b;c".toList ['#'] = true ∧
      (['#'] : List Char).isPrefixOf "a#b;c".toList = false ∧
      (parseEmojiLineA "a#b;c".toList []).2 = none := by
  decide

/-- C9 (amended): the format-A line parser is panic-free on every line
in which a hash occurs in the text after the first semicolon (in
particular on every well-formed data line); the index one into the
hash-split is then in bounds.  Totality over all lines fails, as the
counterexample shows. -/
theorem claim_C9_amended : ∀ line s : List Char,
    '#' ∈ (goSplitN2 line [';']).getD 1 [] →
    ((parseEmojiLineA line s).2).isSome = true := by
  intro line s h
  unfold parseEmojiLineA
  by_cases hpre : subgroupMarker.isPrefixOf line = true
  · rw [if_pos hpre]; rfl
  · rw [if_neg hpre]
    by_cases hf : (!goContains line [';'] || !goContains line ['#'] ||
        (['#'] : List Char).isPrefixOf line ||
        goContains line "minimally-qualified".toList ||
        goContains line "unqualified".toList ||
        goContains line "component".toList) = true
    · rw [if_pos hf]; rfl
    · rw [if_neg hf]
      cases hg : (goSplitStr ((goSplitN2 line [';']).getD 1 []) ['#']).get? 1 with
      | none =>
        exfalso
        have hlen := goSplitStr_length_ge_two h
        have hnone := List.get?_eq_none.mp hg
        omega
      | some ib => rfl

/-- Witness for C9 at a concrete well-formed data line. -/
theorem claim_C9_witness :
    ((parseEmojiLineA "1F600 ; fully-qualified # G E1.0 grinning face".toList
      "s".toList).2).isSome = true :=
  claim_C9_amended _ _ (by decide)

/-- C10: in the format-A pipeline, as long as no subgroup-header line
has been seen, every line — including well-formed fully-qualified data
lines — is skipped: the scan produces no record and the effect-level
scan produces no effect, whatever the mode flag. -/
theorem claim_C10_no_subgroup_no_output : ∀ lines : List (List Char),
    (∀ l ∈ lines, subgroupMarker.isPrefixOf l = false) →
    scanLinesA lines none = some [] ∧
      ∀ flag, mainEffectsLoopA flag lines none = some [] := by
  intro lines h
  refine ⟨scanLinesA_none_of_no_header lines h, fun flag => ?_⟩
  rw [mainEffectsLoopA_eq_scan, scanLinesA_none_of_no_header lines h]
  rfl

/-- Witness for C10 at a concrete well-formed fully-qualified line with
no preceding header. -/
theorem claim_C10_witness :
    scanLinesA ["1F600 ; fully-qualified # G E1.0 grinning face".toList]
      none = some [] :=
  (claim_C10_no_subgroup_no_output _ (by decide)).1
